import Mathlib

/-!
# Verification of the go-digitemp 1-Wire bus master

A shallow embedding of the core of `mcsakoff/go-digitemp`: the Dallas/Maxim
CRC8 checksum, the 64-bit ROM codes and their bit-sequence form, the
Search-ROM / Alarm-Search trie enumeration, the reset-pulse handling, the
temperature-sensor scratchpad protocol and its temperature decoding.

Conventions of the embedding:
* Go bytes are `Nat` values; where a result depends on the byte range the
  theorem carries an explicit `< 256` hypothesis.
* The UART transport is abstracted: transport reads deliver the bytes/bits
  given as explicit inputs to each function, and for the search algorithm the
  bus is the faithful wired-AND response of a set of devices (each device a
  list of 64 transmitted bits).
* Fallible Go functions returning `(value, error)` become `Except String`.
-/

set_option maxRecDepth 100000

namespace Digitemp

/-- Dallas/Maxim CRC8 inner step (one bit of one byte), from `crc8` in the
repository: `mix := (crc ^ b) & 0x01; crc >>= 1; if mix > 0 { crc ^= 0x8c };
b >>= 1`. The state is the pair `(crc, b)`. -/
def crc8Step (cb : Nat × Nat) : Nat × Nat :=
  let mix := (cb.1 ^^^ cb.2) &&& 0x01
  let crc := cb.1 >>> 1
  let crc := if mix > 0 then crc ^^^ 0x8c else crc
  (crc, cb.2 >>> 1)

/-- One byte of the Dallas/Maxim CRC8: eight iterations of `crc8Step`. -/
def crc8Byte (crc b : Nat) : Nat :=
  ((List.range 8).foldl (fun cb _ => crc8Step cb) (crc, b)).1

/-- `crc8` from the repository: fold `crc8Byte` over the buffer, seeded at 0,
never reset between bytes. -/
def crc8 (data : List Nat) : Nat :=
  data.foldl crc8Byte 0x00

/-- `ROM` from `rom.go`: the 8-byte device identifier (`Code [8]byte`). -/
structure ROM where
  Code : List Nat
  deriving Repr, DecidableEq

/-- `ROM.IsValid` from `rom.go`: `crc8(r.Code[0:7]) == r.Code[7]`. -/
def ROM.IsValid (r : ROM) : Bool :=
  decide (crc8 (r.Code.take 7) = r.Code.getD 7 0)

/-- `newRomFromBits` from `rom.go`: start from eight zero bytes and, for each
LSB-first bit `n < 64` that is set, or `1 << (n % 8)` into byte `n / 8`. -/
def newRomFromBits (bits : List Bool) : ROM :=
  ⟨((bits.take 64).enum).foldl
    (fun code nb =>
      if nb.2 then
        code.set (nb.1 / 8) (code.getD (nb.1 / 8) 0 ||| (1 <<< (nb.1 % 8)))
      else code)
    (List.replicate 8 0)⟩

/-- `ROM.toBits` from `rom.go`: each byte unpacked LSB first
(`bits.append(b%2); b >>= 1`, eight times per byte). -/
def ROM.toBits (r : ROM) : List Bool :=
  r.Code.flatMap (fun b => (List.range 8).map (fun i => decide ((b >>> i) % 2 = 1)))

example : crc8 [0x10, 0xa7, 0x5c, 0xa8, 0x02, 0x08, 0x00] = 0x1a := by decide

example : (newRomFromBits (ROM.toBits ⟨[0x10, 0xa7, 0x5c, 0xa8, 0x02, 0x08, 0x00, 0x1a]⟩)).Code
    = [0x10, 0xa7, 0x5c, 0xa8, 0x02, 0x08, 0x00, 0x1a] := by decide

/-! ## The Search-ROM / Alarm-Search algorithm (`searchROM` in
`onewire-device.go` and `bus-driver.go`; both files contain the same
routine).

The bus is a set of devices, each transmitting a fixed list of 64 bits
(LSB-first ROM bits).  1-Wire read slots are wired-AND: a read returns 1 iff
no participating device pulls the line low.  A device participates in the
current round while the bits written back by the master so far match its own
ROM bits, which for the deterministic faithful bus means: the devices
participating after prefix `p` has been written are exactly those whose first
`p.length` bits equal `p`. -/

/-- The devices still participating in a search round after the bit prefix
`p` has been written back on the bus. -/
def matching (devs : List (List Bool)) (p : List Bool) : List (List Bool) :=
  devs.filter (fun d => decide (d.take p.length = p))

/-- First read slot of a bit pair: every participating device transmits its
ROM bit at position `p.length`; the master reads the wired-AND (`b1` in the
source). An empty subtree reads as 1. -/
def lineBit (devs : List (List Bool)) (p : List Bool) : Bool :=
  (matching devs p).all (fun d => d.getD p.length false)

/-- Second read slot of a bit pair: every participating device transmits the
complement of its ROM bit (`b2` in the source). -/
def lineCmp (devs : List (List Bool)) (p : List Bool) : Bool :=
  (matching devs p).all (fun d => !d.getD p.length false)

/-- One round of `searchROM`: the inner `for len(current) < 64` loop.  `rem`
is the number of bit positions still to fix, `64 - current.length`; the
caller maintains that correspondence.  Returns the final `current` together
with the updated `partials` queue (new branches appended at the back, as
`partials = append(partials, r)` does).  The `b1 == b2 == 1` case breaks out
of the loop for Alarm-Search and is the fatal protocol error for Search-ROM.
Transport errors cannot occur on the faithful bus, so the `ReadBit`/`WriteBit`
error paths of the source are unreachable and not represented. -/
def searchRound (devs : List (List Bool)) (WithAlarm : Bool) :
    Nat → List Bool → List (List Bool) →
    Except String (List Bool × List (List Bool))
  | 0, current, partials => .ok (current, partials)
  | rem + 1, current, partials =>
    let b1 := lineBit devs current
    let b2 := lineCmp devs current
    if b1 ≠ b2 then
      -- all devices have this bit set to 0 or 1
      searchRound devs WithAlarm rem (current ++ [b1]) partials
    else if b1 = false then
      -- two or more devices disagree here: queue the 1-branch, proceed with 0
      searchRound devs WithAlarm rem (current ++ [false])
        (partials ++ [current ++ [true]])
    else
      if WithAlarm then .ok (current, partials)
      else .error "search command got wrong bits (two sequential 0b1)"

/-- The outer `for` loop of `searchROM`: run a round, append
`newRomFromBits(current)` to `complete`, stop when `partials` is empty,
otherwise pop the front of the queue and repeat.  `fuel` bounds the number of
rounds (the Go loop terminates because every round consumes one pending
branch; the theorems are stated for any sufficient fuel). -/
def searchLoop (devs : List (List Bool)) (WithAlarm : Bool) :
    List Bool → List (List Bool) → List ROM → Nat →
    Except String (List ROM)
  | _, _, _, 0 => .error "out of fuel"
  | current, partials, complete, fuel + 1 =>
    match searchRound devs WithAlarm (64 - current.length) current partials with
    | .error e => .error e
    | .ok (cur, parts) =>
      let complete := complete ++ [newRomFromBits cur]
      match parts with
      | [] => .ok complete
      | q :: rest => searchLoop devs WithAlarm q rest complete fuel

/-- `searchROM(WithAlarm)` from the repository, run against the faithful bus
holding `devs`: start with an empty current path, an empty pending queue and
an empty result list. -/
def searchROM (devs : List (List Bool)) (WithAlarm : Bool) (fuel : Nat) :
    Except String (List ROM) :=
  searchLoop devs WithAlarm [] [] [] fuel

example :
    searchROM [ROM.toBits ⟨[0x10, 0xa7, 0x5c, 0xa8, 0x02, 0x08, 0x00, 0x1a]⟩] false 1
      = .ok [⟨[0x10, 0xa7, 0x5c, 0xa8, 0x02, 0x08, 0x00, 0x1a]⟩] := rfl

/-! ### Facts about `matching` -/

lemma mem_matching {devs : List (List Bool)} {p d : List Bool} :
    d ∈ matching devs p ↔ d ∈ devs ∧ d.take p.length = p := by
  simp [matching, List.mem_filter]

lemma matching_nil (devs : List (List Bool)) : matching devs [] = devs := by
  simp [matching]

lemma matching_append (devs : List (List Bool))
    (hlen : ∀ d ∈ devs, d.length = 64) (p : List Bool) (hp : p.length < 64)
    (b : Bool) :
    matching devs (p ++ [b])
      = (matching devs p).filter (fun d => decide (d.getD p.length false = b)) := by
  unfold matching
  rw [List.filter_filter]
  apply List.filter_congr
  intro d hd
  have hdl : p.length < d.length := by rw [hlen d hd]; exact hp
  have hget : d[p.length]? = some (d.getD p.length false) := by
    rw [List.getD_eq_getElem d false hdl, List.getElem?_eq_getElem hdl]
  rw [← Bool.decide_and, decide_eq_decide]
  have hlen1 : (p ++ [b]).length = p.length + 1 := by simp
  rw [hlen1, List.take_succ, hget]
  constructor
  · intro h
    rcases List.append_inj' h (by simp) with ⟨h1, h2⟩
    exact ⟨by simpa using h2, h1⟩
  · intro ⟨h1, h2⟩
    rw [Option.toList_some, h1, h2]

lemma matching_append_of_all (devs : List (List Bool))
    (hlen : ∀ d ∈ devs, d.length = 64) (p : List Bool) (hp : p.length < 64)
    (b : Bool)
    (hall : ∀ d ∈ matching devs p, d.getD p.length false = b) :
    matching devs (p ++ [b]) = matching devs p := by
  rw [matching_append devs hlen p hp b]
  apply List.filter_eq_self.mpr
  intro d hd
  rw [decide_eq_true_eq]
  exact hall d hd

lemma matching_partition_perm (devs : List (List Bool))
    (hlen : ∀ d ∈ devs, d.length = 64) (p : List Bool) (hp : p.length < 64) :
    (matching devs (p ++ [false]) ++ matching devs (p ++ [true])).Perm
      (matching devs p) := by
  rw [matching_append devs hlen p hp false, matching_append devs hlen p hp true]
  have hcongr :
      (matching devs p).filter (fun d => decide (d.getD p.length false = true))
        = (matching devs p).filter
            (fun d => !(decide (d.getD p.length false = false))) := by
    apply List.filter_congr
    intro d _
    cases d.getD p.length false <;> simp
  rw [hcongr]
  exact List.filter_append_perm _ (matching devs p)

lemma filter_eq_singleton_of_nodup {α : Type} [DecidableEq α] {l : List α}
    (hnd : l.Nodup) {a : α} (ha : a ∈ l) :
    l.filter (fun x => decide (x = a)) = [a] := by
  induction l with
  | nil => cases ha
  | cons b t ih =>
    rcases List.nodup_cons.mp hnd with ⟨hb, ht⟩
    rcases List.mem_cons.mp ha with h | h
    · subst h
      have hnil : t.filter (fun x => decide (x = a)) = [] := by
        rw [List.filter_eq_nil_iff]
        intro x hx
        simp only [decide_eq_true_eq]
        rintro rfl
        exact hb hx
      simp [List.filter_cons, hnil]
    · have hba : ¬(b = a) := by rintro rfl; exact hb h
      simp [List.filter_cons, hba, ih ht h]

lemma matching_full (devs : List (List Bool))
    (hlen : ∀ d ∈ devs, d.length = 64) (hnd : devs.Nodup) {p : List Bool}
    (hp : p.length = 64) (hne : matching devs p ≠ []) :
    matching devs p = [p] ∧ p ∈ devs := by
  have hfix : matching devs p = devs.filter (fun x => decide (x = p)) := by
    unfold matching
    apply List.filter_congr
    intro d hd
    rw [decide_eq_decide.mpr]
    rw [hp, ← hlen d hd, List.take_length]
  by_cases hmem : p ∈ devs
  · exact ⟨hfix ▸ filter_eq_singleton_of_nodup hnd hmem, hmem⟩
  · exfalso
    apply hne
    rw [hfix, List.filter_eq_nil_iff]
    intro x hx
    simp only [decide_eq_true_eq]
    rintro rfl
    exact hmem hx

/-! ### Facts about the read slots `lineBit` / `lineCmp` -/

lemma lineBit_eq_true {devs : List (List Bool)} {p : List Bool} :
    lineBit devs p = true ↔ ∀ d ∈ matching devs p, d.getD p.length false = true := by
  simp [lineBit, List.all_eq_true]

lemma lineCmp_eq_true {devs : List (List Bool)} {p : List Bool} :
    lineCmp devs p = true ↔ ∀ d ∈ matching devs p, d.getD p.length false = false := by
  simp [lineCmp, List.all_eq_true]

lemma lineBit_eq_false {devs : List (List Bool)} {p : List Bool} :
    lineBit devs p = false ↔ ∃ d ∈ matching devs p, d.getD p.length false = false := by
  rw [← Bool.not_eq_true, lineBit_eq_true]
  simp

lemma lineCmp_eq_false {devs : List (List Bool)} {p : List Bool} :
    lineCmp devs p = false ↔ ∃ d ∈ matching devs p, d.getD p.length false = true := by
  rw [← Bool.not_eq_true, lineCmp_eq_true]
  simp

lemma not_both_true {devs : List (List Bool)} {p : List Bool}
    (hne : matching devs p ≠ []) :
    ¬(lineBit devs p = true ∧ lineCmp devs p = true) := by
  rintro ⟨h1, h2⟩
  obtain ⟨x, hx⟩ := List.exists_mem_of_ne_nil _ hne
  have := lineBit_eq_true.mp h1 x hx
  have := lineCmp_eq_true.mp h2 x hx
  simp_all

lemma agreement_bits {devs : List (List Bool)} {p : List Bool}
    (h12 : ¬(lineBit devs p = lineCmp devs p)) :
    ∀ d ∈ matching devs p, d.getD p.length false = lineBit devs p := by
  intro d hd
  cases hb1 : lineBit devs p with
  | true => exact lineBit_eq_true.mp hb1 d hd
  | false =>
    have hb2 : lineCmp devs p = true := by
      cases hb2 : lineCmp devs p with
      | true => rfl
      | false => exact absurd (hb1.trans hb2.symm) h12
    exact lineCmp_eq_true.mp hb2 d hd

/-! ### One search round resolves exactly one device -/

/-- A Search-ROM round (`WithAlarm = false`) started on a non-empty subtree
completes one device `d`, appends its fresh branch points to the back of the
queue, and the devices of the subtree are exactly `d` together with the
devices of the queued branches. -/
lemma searchRound_spec (devs : List (List Bool))
    (hlen : ∀ d ∈ devs, d.length = 64) (hnd : devs.Nodup) :
    ∀ rem current partials, rem = 64 - current.length → current.length ≤ 64 →
    matching devs current ≠ [] →
    ∃ d newParts,
      searchRound devs false rem current partials = .ok (d, partials ++ newParts) ∧
      d ∈ devs ∧
      (matching devs current).Perm (d :: newParts.flatMap (matching devs)) ∧
      (∀ q ∈ newParts, q.length ≤ 64 ∧ matching devs q ≠ []) := by
  intro rem
  induction rem with
  | zero =>
    intro current partials hrem hle hne
    have hlen64 : current.length = 64 := by omega
    obtain ⟨hsingle, hmem⟩ := matching_full devs hlen hnd hlen64 hne
    refine ⟨current, [], by simp [searchRound], hmem, ?_, by simp⟩
    rw [hsingle]
    simp
  | succ rem ih =>
    intro current partials hrem hle hne
    have hlt : current.length < 64 := by omega
    by_cases h12 : lineBit devs current = lineCmp devs current
    · by_cases h1 : lineBit devs current = false
      · -- collision: b1 = b2 = 0; queue the 1-branch, follow the 0-branch
        have h2 : lineCmp devs current = false := h12 ▸ h1
        have hne0 : matching devs (current ++ [false]) ≠ [] := by
          obtain ⟨x, hx, hxbit⟩ := lineBit_eq_false.mp h1
          apply List.ne_nil_of_mem (a := x)
          rw [matching_append devs hlen current hlt false, List.mem_filter]
          exact ⟨hx, decide_eq_true hxbit⟩
        have hne1 : matching devs (current ++ [true]) ≠ [] := by
          obtain ⟨x, hx, hxbit⟩ := lineCmp_eq_false.mp h2
          apply List.ne_nil_of_mem (a := x)
          rw [matching_append devs hlen current hlt true, List.mem_filter]
          exact ⟨hx, decide_eq_true hxbit⟩
        obtain ⟨d, parts, hres, hd, hperm, hprops⟩ :=
          ih (current ++ [false]) (partials ++ [current ++ [true]])
            (by simp; omega) (by simp; omega) hne0
        refine ⟨d, (current ++ [true]) :: parts, ?_, hd, ?_, ?_⟩
        · show searchRound devs false (rem + 1) current partials = _
          simp only [searchRound]
          rw [if_neg (by simp [h12]), if_pos h1, hres, List.append_assoc]
          rfl
        · rw [List.flatMap_cons]
          refine (matching_partition_perm devs hlen current hlt).symm.trans ?_
          refine (hperm.append_right _).trans ?_
          rw [List.cons_append]
          exact List.Perm.cons d List.perm_append_comm
        · intro q hq
          rcases List.mem_cons.mp hq with h | h
          · subst h
            exact ⟨by simp; omega, hne1⟩
          · exact hprops q h
      · -- b1 = b2 = 1 is impossible on a non-empty subtree
        exfalso
        apply not_both_true hne
        have h1t : lineBit devs current = true := by
          cases hb : lineBit devs current with
          | true => rfl
          | false => exact absurd hb h1
        exact ⟨h1t, h12 ▸ h1t⟩
    · -- all remaining devices agree on this bit
      have hall := agreement_bits h12
      have heq : matching devs (current ++ [lineBit devs current]) = matching devs current :=
        matching_append_of_all devs hlen current hlt _ hall
      obtain ⟨d, parts, hres, hd, hperm, hprops⟩ :=
        ih (current ++ [lineBit devs current]) partials
          (by simp; omega) (by simp; omega) (by rw [heq]; exact hne)
      refine ⟨d, parts, ?_, hd, ?_, hprops⟩
      · show searchRound devs false (rem + 1) current partials = _
        simp only [searchRound]
        rw [if_pos (by simp [h12]), hres]
      · rw [← heq]
        exact hperm

/-- The outer `searchROM` loop (`WithAlarm = false`): with enough fuel (one
round per remaining device) it succeeds, appending to `complete` one ROM per
device still reachable from the current path or any queued branch — each such
device exactly once. -/
lemma searchLoop_spec (devs : List (List Bool))
    (hlen : ∀ d ∈ devs, d.length = 64) (hnd : devs.Nodup) :
    ∀ fuel current partials complete, current.length ≤ 64 →
    matching devs current ≠ [] →
    (∀ q ∈ partials, q.length ≤ 64 ∧ matching devs q ≠ []) →
    ((current :: partials).flatMap (matching devs)).length ≤ fuel →
    ∃ found : List (List Bool),
      searchLoop devs false current partials complete fuel
        = .ok (complete ++ found.map newRomFromBits) ∧
      found.Perm ((current :: partials).flatMap (matching devs)) ∧
      ∀ d ∈ found, d ∈ devs := by
  intro fuel
  induction fuel with
  | zero =>
    intro current partials complete hle hne hparts htotal
    exfalso
    obtain ⟨x, hx⟩ := List.exists_mem_of_ne_nil _ hne
    have : x ∈ (current :: partials).flatMap (matching devs) := by
      rw [List.flatMap_cons]
      exact List.mem_append_left _ hx
    have := List.length_pos_of_mem this
    omega
  | succ fuel ih =>
    intro current partials complete hle hne hparts htotal
    obtain ⟨d, newParts, hres, hd, hperm, hprops⟩ :=
      searchRound_spec devs hlen hnd (64 - current.length) current partials rfl hle hne
    have hcount : (matching devs current).length
        = (newParts.flatMap (matching devs)).length + 1 := by
      rw [hperm.length_eq, List.length_cons]
    rcases hparts2 : partials ++ newParts with _ | ⟨q, rest⟩
    · -- queue empty after the round: the search is complete
      rcases List.append_eq_nil.mp hparts2 with ⟨hp1, hp2⟩
      refine ⟨[d], ?_, ?_, by simpa using hd⟩
      · simp only [searchLoop]
        rw [hres, hparts2]
        rfl
      · subst hp1
        rw [List.flatMap_cons, List.flatMap_nil, List.append_nil]
        subst hp2
        simpa using hperm.symm
    · -- pop the head of the queue and continue
      have hq : q ∈ partials ++ newParts := by rw [hparts2]; exact List.mem_cons_self q rest
      have hqprop : q.length ≤ 64 ∧ matching devs q ≠ [] := by
        rcases List.mem_append.mp hq with h | h
        · exact hparts q h
        · exact hprops q h
      have hrest : ∀ r ∈ rest, r.length ≤ 64 ∧ matching devs r ≠ [] := by
        intro r hr
        have : r ∈ partials ++ newParts := by
          rw [hparts2]; exact List.mem_cons_of_mem q hr
        rcases List.mem_append.mp this with h | h
        · exact hparts r h
        · exact hprops r h
      have htotal2 : ((q :: rest).flatMap (matching devs)).length ≤ fuel := by
        have he : (q :: rest).flatMap (matching devs)
            = (partials ++ newParts).flatMap (matching devs) := by rw [hparts2]
        have hsplit := List.flatMap_append partials newParts (matching devs)
        have hcons := List.flatMap_cons (f := matching devs) current partials
        have h1 : ((current :: partials).flatMap (matching devs)).length
            = (matching devs current).length + (partials.flatMap (matching devs)).length := by
          rw [hcons, List.length_append]
        have h2 : ((q :: rest).flatMap (matching devs)).length
            = (partials.flatMap (matching devs)).length
              + (newParts.flatMap (matching devs)).length := by
          rw [he, hsplit, List.length_append]
        omega
      obtain ⟨found2, hres2, hperm2, hmem2⟩ :=
        ih q rest (complete ++ [newRomFromBits d]) hqprop.1 hqprop.2 hrest htotal2
      refine ⟨d :: found2, ?_, ?_, ?_⟩
      · simp only [searchLoop]
        rw [hres, hparts2]
        show searchLoop devs false q rest (complete ++ [newRomFromBits d]) fuel
            = .ok (complete ++ List.map newRomFromBits (d :: found2))
        rw [hres2, List.map_cons, List.append_assoc, List.singleton_append]
      · have hfptq : found2.Perm ((partials ++ newParts).flatMap (matching devs)) := by
          rw [hparts2]; exact hperm2
        rw [List.flatMap_cons]
        have hA : found2.Perm
            (newParts.flatMap (matching devs) ++ partials.flatMap (matching devs)) := by
          refine hfptq.trans ?_
          rw [List.flatMap_append]
          exact List.perm_append_comm
        have hC : (d :: found2).Perm
            ((d :: newParts.flatMap (matching devs)) ++ partials.flatMap (matching devs)) :=
          List.Perm.cons d hA
        have hD : ((d :: newParts.flatMap (matching devs))
              ++ partials.flatMap (matching devs)).Perm
            (matching devs current ++ partials.flatMap (matching devs)) :=
          hperm.symm.append_right _
        exact hC.trans hD
      · intro x hx
        rcases List.mem_cons.mp hx with h | h
        · subst h; exact hd
        · exact hmem2 x h

/-! ### Claim theorems for the search algorithm -/

/-- A convenient concrete two-device bus for witnesses: the ROM from the
repository README (`10A75CA80208001A`) and a second CRC-valid ROM. -/
def witnessBus : List (List Bool) :=
  [ROM.toBits ⟨[0x10, 0xa7, 0x5c, 0xa8, 0x02, 0x08, 0x00, 0x1a]⟩,
   ROM.toBits ⟨[0x28, 0x25, 0xea, 0x52, 0x05, 0x10, 0xf3, 0xb4]⟩]

/-- C1 (amended: the simulated bus must be non-empty — see the
counterexample). For every non-empty simulated bus holding a finite set of N
devices with pairwise-distinct CRC-valid ROM codes answering the Search-ROM
bit/complement protocol faithfully, `searchROM(false)` (`GetConnectedROMs`)
returns a list of exactly N ROMs, each passing the CRC8 check, and the
multiset of returned ROMs equals the device set, each device's ROM appearing
exactly once. -/
theorem C1_search_complete (devs : List (List Bool)) (fuel : Nat)
    (hne : devs ≠ [])
    (hlen : ∀ d ∈ devs, d.length = 64)
    (hnd : (devs.map newRomFromBits).Nodup)
    (hcrc : ∀ d ∈ devs, (newRomFromBits d).IsValid = true)
    (hfuel : devs.length ≤ fuel) :
    ∃ roms : List ROM,
      searchROM devs false fuel = .ok roms ∧
      roms.length = devs.length ∧
      (∀ r ∈ roms, r.IsValid = true) ∧
      roms.Perm (devs.map newRomFromBits) := by
  have hnd2 : devs.Nodup := List.Nodup.of_map _ hnd
  obtain ⟨found, hres, hperm, hmem⟩ :=
    searchLoop_spec devs hlen hnd2 fuel [] [] [] (by simp)
      (by rw [matching_nil]; exact hne) (by simp)
      (by simpa [matching_nil] using hfuel)
  have hfd : found.Perm devs := by
    simpa [matching_nil] using hperm
  refine ⟨found.map newRomFromBits, hres, ?_, ?_, hfd.map newRomFromBits⟩
  · rw [List.length_map, hfd.length_eq]
  · intro r hr
    obtain ⟨d, hdf, rfl⟩ := List.mem_map.mp hr
    exact hcrc d (hmem d hdf)

/-- C1 counterexample: with N = 0 devices the very first bit pair of the
round reads 1/1, which `searchROM(false)` treats as a fatal protocol error,
so it does not return the empty list of ROMs the claim demands. -/
theorem C1_counterexample :
    ¬ ∃ roms : List ROM, searchROM [] false 1 = .ok roms := by
  rintro ⟨roms, h⟩
  rw [show searchROM [] false 1
      = .error "search command got wrong bits (two sequential 0b1)" from rfl] at h
  exact Except.noConfusion h

/-- Witness for C1: the amended theorem applied to a concrete two-device bus. -/
theorem C1_search_complete_witness :
    ∃ roms : List ROM,
      searchROM witnessBus false 2 = .ok roms ∧
      roms.length = witnessBus.length ∧
      (∀ r ∈ roms, r.IsValid = true) ∧
      roms.Perm (witnessBus.map newRomFromBits) :=
  C1_search_complete witnessBus 2 (by decide) (by decide) (by decide)
    (by decide) (by decide)

/-- C2: contrary to the claim (and to the comment in the source), after the
alarm-search `break` on `b1 == b2 == 1` the code still executes
`complete = append(complete, newRomFromBits(current))`, because `break` only
leaves the inner bit loop.  With zero alarming devices the break happens at
bit position 0 and `GetROMsWithAlarm` returns a one-element list holding the
all-zero ROM built from the empty partial path — not the empty list. -/
theorem C2_alarm_break_appends_rom :
    searchROM [] true 1 = .ok [⟨[0, 0, 0, 0, 0, 0, 0, 0]⟩]
      ∧ searchROM [] true 1 ≠ .ok [] := by
  constructor
  · rfl
  · intro h
    rw [show searchROM [] true 1
        = .ok [(⟨[0, 0, 0, 0, 0, 0, 0, 0]⟩ : ROM)] from rfl] at h
    simp at h

/-! ## Read-ROM and ROM text parsing (`readROM`, `NewROMFromString`) -/

/-- `readROM` (Read-ROM, command `0x33`) from `onewire-device.go` /
`bus-driver.go`: after a reset and the command byte, read 8 bytes into
`rom.Code` and reject the ROM with a CRC error unless `IsValid`.  `data` is
the 8 bytes delivered by the bus; reset/command transport failures abort
earlier and are not modelled. -/
def readROM (data : List Nat) : Except String ROM :=
  let rom : ROM := ⟨data⟩
  if rom.IsValid then .ok rom else .error "crc error"

/-- One hex digit as accepted by `strconv.ParseInt(s, 16, 16)` on a plain
two-hex-digit substring.  (Go's `ParseInt` would additionally accept a sign
prefix inside a pair; that corner is not modelled — every claim here concerns
plain hex strings.) -/
def hexDigit (c : Char) : Option Nat :=
  if '0' ≤ c ∧ c ≤ '9' then some (c.toNat - '0'.toNat)
  else if 'a' ≤ c ∧ c ≤ 'f' then some (c.toNat - 'a'.toNat + 10)
  else if 'A' ≤ c ∧ c ≤ 'F' then some (c.toNat - 'A'.toNat + 10)
  else none

/-- The parse loop of `NewROMFromString`: consume the 16 characters two hex
digits at a time (`code[i*2 : i*2+2]`), producing one byte per pair. -/
def parseRomChars : List Char → Option (List Nat)
  | [] => some []
  | c1 :: c2 :: rest =>
    match hexDigit c1, hexDigit c2, parseRomChars rest with
    | some h1, some h2, some bs => some ((16 * h1 + h2) :: bs)
    | _, _, _ => none
  | _ => none

/-- `NewROMFromString` from `rom.go`: reject any length other than 16, then
parse 8 hex byte pairs.  Note: the function performs no CRC validation. -/
def NewROMFromString (code : String) : Except String ROM :=
  if code.length ≠ 16 then .error "wrong rom code length"
  else
    match parseRomChars code.toList with
    | some bytes => .ok ⟨bytes⟩
    | none => .error "invalid hex digit"

/-! ## Temperature sensor protocol (`onewire-temperature-sensor.go`) -/

def BSResolution9bits : Nat := 0x0

def BS18S20ResolutionExtended : Nat := 0x1

/-- Go's `binary.Read(..., binary.LittleEndian, &t)` with `t int16` applied
to scratchpad bytes 0-1: two's-complement value of `b0 + 256*b1`. -/
def int16OfLE (b0 b1 : Nat) : Int :=
  let n := (b0 + 256 * b1) % 65536
  if n < 32768 then (n : Int) else (n : Int) - 65536

/-- `calcTemperature` from `onewire-temperature-sensor.go`: decode scratchpad
bytes 0-1 as a signed little-endian 16-bit count, then dispatch on the family
code.  Family `0x10`: `raw * 5000`, refined by count-remain/count-per-degree
in extended resolution.  Families `0x22`/`0x28`: `raw * 10000 / 16` (Go `/`
on `int` truncates toward zero, hence `Int.tdiv`).  Any other family leaves
`var temp int` at zero. -/
def calcTemperature (familyCode resolution : Nat) (scratchpad : List Nat) : Int :=
  let t : Int := int16OfLE (scratchpad.getD 0 0) (scratchpad.getD 1 0)
  if familyCode = 0x10 then
    let temp := t * 5000
    if resolution > BSResolution9bits then
      let countRemain : Int := scratchpad.getD 6 0
      let countPerC : Int := scratchpad.getD 7 0
      temp - 2500 + Int.tdiv (10000 * (countPerC - countRemain)) countPerC
    else temp
  else if familyCode = 0x22 ∨ familyCode = 0x28 then
    Int.tdiv (t * 10000) 16
  else 0

/-- `readScratchpad` (Read-Scratchpad, command `0xBE`): read 9 bytes (`data`
is what the bus delivers into `make([]byte, 9)`), split into the 8 scratchpad
bytes and the trailing CRC byte, and fail with `scratchpad crc error` unless
`crc8(scratchpad) == crc`. -/
def readScratchpad (data : List Nat) : Except String (List Nat) :=
  let scratchpad := data.take 8
  let crc := data.getD 8 0
  if crc8 scratchpad ≠ crc then .error "scratchpad crc error"
  else .ok scratchpad

/-- `GetTemperature` from `onewire-temperature-sensor.go`: Convert-T (whose
conversion wait never errors on a healthy transport, see `wait`), then read
the scratchpad and return `calcTemperature(sp) / 100`.  A scratchpad failure
is propagated and no temperature is produced. -/
def GetTemperature (familyCode resolution : Nat) (data : List Nat) :
    Except String Int :=
  match readScratchpad data with
  | .error e => .error e
  | .ok sp => .ok (Int.tdiv (calcTemperature familyCode resolution sp) 100)

/-- The mutable configuration fields of `TemperatureSensor` (the bus/ROM
session fields are immutable and claims about them are handled separately).
`tConv` and `tRW` are `time.Duration` values in nanoseconds. -/
structure TemperatureSensor where
  familyCode : Nat
  resolution : Nat
  description : String
  precision : String
  tConv : Nat
  tRW : Nat
  deriving Repr, DecidableEq

/-- A bus transaction issued by a sensor configuration operation. -/
inductive BusOp
  | readScr
  | writeScr (data : List Nat)
  deriving Repr, DecidableEq

/-- The configuration part of `NewTemperatureSensor`: initial fields
(`resolution = 9 bits`, `tConv = 750ms`, `tRW = 10ms`), the description
switch, and the precision/resolution switch.  For families `0x22`/`0x28` the
scratchpad is read (`scr` is that read's outcome), the resolution is taken
from configuration-byte bits 5-6 and
`tConv = time.Millisecond * (750 / (8 >> resolution))` — integer division,
computed before the multiplication by `time.Millisecond = 10^6` ns. -/
def NewTemperatureSensorConfig (familyCode : Nat)
    (scr : Except String (List Nat)) : Except String TemperatureSensor :=
  let s : TemperatureSensor :=
    { familyCode := familyCode, resolution := BSResolution9bits,
      description := "", precision := "",
      tConv := 750 * 1000000, tRW := 10 * 1000000 }
  let s :=
    if familyCode = 0x00 then { s with description := "Unidentified device" }
    else if familyCode = 0x10 then
      { s with description := "DS18S20 - High-precision Digital Thermometer" }
    else if familyCode = 0x22 then
      { s with description := "DS1822 - Econo Digital Thermometer" }
    else if familyCode = 0x28 then
      { s with description := "DS18B20 - Programmable Resolution Digital Thermometer" }
    else s
  if familyCode = 0x10 then
    .ok { s with precision :=
            if s.resolution = BSResolution9bits then "9 bits" else "extended" }
  else if familyCode = 0x22 ∨ familyCode = 0x28 then
    match scr with
    | .error e => .error e
    | .ok sp =>
      let s := { s with resolution := (sp.getD 4 0 >>> 5) &&& 0b11 }
      .ok { s with tConv := 1000000 * (750 / (8 >>> s.resolution)),
                   precision := toString (9 + s.resolution) ++ " bits" }
  else .ok { s with precision := "unknown" }

/-- `SetResolution` from `onewire-temperature-sensor.go`.  `scr` is the
outcome of the scratchpad read and `writeRes` the outcome of the scratchpad
write (both only reached for families `0x22`/`0x28`).  Returns the Go result,
the sensor state afterwards, and the list of bus transactions issued.  Note
the `default`-free switch: any other family falls through to `return nil`
without touching the bus or the state. -/
def SetResolution (s : TemperatureSensor) (resolution : Nat)
    (scr : Except String (List Nat)) (writeRes : Except String Unit) :
    Except String Unit × TemperatureSensor × List BusOp :=
  if s.familyCode = 0x10 then
    if resolution = BSResolution9bits then
      (.ok (), { s with resolution := BSResolution9bits, precision := "9 bits" }, [])
    else
      (.ok (), { s with resolution := BS18S20ResolutionExtended,
                        precision := "extended" }, [])
  else if s.familyCode = 0x22 ∨ s.familyCode = 0x28 then
    match scr with
    | .error e => (.error e, s, [BusOp.readScr])
    | .ok scratchpad =>
      let s := { s with resolution := resolution &&& 0b11 }
      let data := [scratchpad.getD 2 0, scratchpad.getD 3 0,
                   (s.resolution <<< 5) ||| 0b00011111]
      match writeRes with
      | .error e => (.error e, s, [BusOp.readScr, BusOp.writeScr data])
      | .ok _ =>
        (.ok (),
         { s with tConv := 1000000 * (750 / (8 >>> s.resolution)),
                  precision := toString (9 + s.resolution) ++ " bits" },
         [BusOp.readScr, BusOp.writeScr data])
  else (.ok (), s, [])

/-! ## Reset pulse (`reset` in `bus-driver.go`) -/

/-- A transaction against the serial port, for recording what `reset` does to
the transport. -/
inductive PortOp
  | setBaud (rate : Nat)
  | clearBuffers
  | write (b : Nat)
  | readByte
  deriving Repr, DecidableEq

/-- The echo handling inside `reset` (`bus-driver.go`): low nibble must be 0
(`buffer[0] & 0xf != 0x0` → reset pulse error), then an all-ones upper nibble
(`buffer[0] >> 4 == 0xf`) means no device pulled the line → "no 1-wire device
present"; otherwise presence is confirmed. -/
def resetPulseCheck (echo : Nat) : Except String Unit :=
  if echo &&& 0xf ≠ 0x0 then .error "reset pulse error"
  else if echo >>> 4 = 0xf then .error "no 1-wire device present"
  else .ok ()

/-- `reset` from `bus-driver.go`: set the baud rate to 9600, clear the
buffers, write the fixed reset-pulse byte `0xF0`, read one byte back
(delivered as `echo`), then restore 115200 baud unconditionally — the pulse
outcome `pulseErr` is captured first and returned after the restore.  The
first component records the transport operations performed. -/
def reset (echo : Nat) : List PortOp × Except String Unit :=
  ([PortOp.setBaud 9600, PortOp.clearBuffers, PortOp.write 0xf0,
    PortOp.readByte, PortOp.setBaud 115200],
   resetPulseCheck echo)

/-! ## Conversion wait (`wait` in `onewire-temperature-sensor.go`) -/

/-- The externally-powered branch of `wait`: poll `ReadBit` until a 1 bit is
seen or the elapsed time exceeds the bound.  Real time is abstracted into a
poll budget: `bits i` is the outcome of the `i`-th `ReadBit`, and `fuel` is
the number of polls after which `time.Since(startedAt) > duration` becomes
true (checked, as in the source, only after an unsuccessful bit).  Exhausting
the budget `break`s out with success, exactly like observing a 1 bit; only a
`ReadBit` transport error is returned as an error. -/
def wait (bits : Nat → Except String Bool) : Nat → Nat → Except String Unit
  | fuel, i =>
    match bits i with
    | .error e => .error e
    | .ok b =>
      if b ≠ false then .ok ()
      else
        match fuel with
        | 0 => .ok ()
        | fuel + 1 => wait bits fuel (i + 1)

/-! ## The two byte-loop adapters (`ReadBytes` in `bus.go`,
`readBytes` in `bus-driver.go`) -/

/-- The loop of `ReadBytes` (tarm/serial adapter, `bus.go`): `rem` counts the
iterations left of `for i = 0; i < size; i++`, `i` is the loop index and
`buffer` the bytes stored so far; `reads i` is the outcome of the `i`-th
`ReadByte` call.  After the loop completes Go executes `i += 1` and returns
`i` — one more than the number of bytes read. -/
def ReadBytesLoop (reads : Nat → Except String Nat) :
    Nat → Nat → List Nat → (Nat × List Nat) × Option String
  | 0, i, buffer => ((i + 1, buffer), none)
  | rem + 1, i, buffer =>
    match reads i with
    | .error e => ((i, buffer), some e)
    | .ok b => ReadBytesLoop reads rem (i + 1) (buffer ++ [b])

/-- `ReadBytes` from `bus.go` (tarm/serial adapter). -/
def ReadBytes (reads : Nat → Except String Nat) (size : Nat) :
    (Nat × List Nat) × Option String :=
  ReadBytesLoop reads size 0 []

/-- The loop of `readBytes` (go.bug.st adapter, `bus-driver.go`): identical
to `ReadBytesLoop` except that the count returned after a complete loop is
`i` itself. -/
def readBytesLoop (reads : Nat → Except String Nat) :
    Nat → Nat → List Nat → (Nat × List Nat) × Option String
  | 0, i, buffer => ((i, buffer), none)
  | rem + 1, i, buffer =>
    match reads i with
    | .error e => ((i, buffer), some e)
    | .ok b => readBytesLoop reads rem (i + 1) (buffer ++ [b])

/-- `readBytes` from `bus-driver.go` (go.bug.st adapter). -/
def readBytes (reads : Nat → Except String Nat) (size : Nat) :
    (Nat × List Nat) × Option String :=
  readBytesLoop reads size 0 []

/-! ### Claim theorems C3 - C10 -/

/-- C3 counterexample: the 16-character string "0000000000000001" parses
successfully into a ROM whose CRC byte (`0x01`) does not match `crc8` of the
first seven bytes (`0x00`) — `NewROMFromString` performs no CRC check, so a
parsed ROM can violate the invariant without any integrity error. -/
theorem C3_counterexample :
    NewROMFromString "0000000000000001" = .ok ⟨[0, 0, 0, 0, 0, 0, 0, 1]⟩
      ∧ (⟨[0, 0, 0, 0, 0, 0, 0, 1]⟩ : ROM).IsValid = false := by
  constructor
  · rfl
  · decide

/-- C3 (amended): a ROM obtained from the bus by Read-ROM always satisfies
`crc8(Code[0..6]) == Code[7]` — on mismatch `readROM` reports a CRC error and
returns no ROM — and the bytes read are returned unaltered.
`NewROMFromString`, by contrast, validates only the length (16) and hex
syntax: any well-formed hex string parses to exactly its byte pairs, with no
CRC check. -/
theorem C3_rom_integrity (data : List Nat) :
    (∀ r, readROM data = .ok r → r.Code = data ∧ r.IsValid = true) ∧
    ((⟨data⟩ : ROM).IsValid = false → readROM data = .error "crc error") ∧
    (∀ code : String, ∀ bytes : List Nat, code.length = 16 →
      parseRomChars code.toList = some bytes →
      NewROMFromString code = .ok ⟨bytes⟩) := by
  refine ⟨?_, ?_, ?_⟩
  · intro r h
    by_cases hv : (⟨data⟩ : ROM).IsValid = true
    · have hr : readROM data = .ok ⟨data⟩ := by simp [readROM, hv]
      rw [hr] at h
      cases h
      exact ⟨rfl, hv⟩
    · have hr : readROM data = .error "crc error" := by
        simp [readROM, hv]
      rw [hr] at h
      exact Except.noConfusion h
  · intro hv
    simp [readROM, hv]
  · intro code bytes hlen hparse
    have hparse2 : parseRomChars code.data = some bytes := hparse
    simp [NewROMFromString, hlen, hparse2]

/-- Witness for C3: an invalid-CRC byte read is rejected by `readROM`, and a
concrete valid 16-hex-character string parses without a CRC check. -/
theorem C3_rom_integrity_witness :
    readROM [0, 0, 0, 0, 0, 0, 0, 1] = .error "crc error" ∧
    NewROMFromString "10A75CA80208001A"
      = .ok ⟨[0x10, 0xa7, 0x5c, 0xa8, 0x02, 0x08, 0x00, 0x1a]⟩ :=
  ⟨(C3_rom_integrity [0, 0, 0, 0, 0, 0, 0, 1]).2.1 (by decide),
   (C3_rom_integrity []).2.2 "10A75CA80208001A"
     [0x10, 0xa7, 0x5c, 0xa8, 0x02, 0x08, 0x00, 0x1a] (by decide) (by decide)⟩

/-- C4 counterexample: the claim sends the 9-bit resolution code (0) to
750 ms, but after `SetResolution(0)` on a family-`0x28` sensor the stored
conversion time is `time.Millisecond * (750 / (8 >> 0)) = 93 ms` (integer
division!), not 750 ms. -/
theorem C4_counterexample :
    (SetResolution ⟨0x28, 0x3, "", "12 bits", 750000000, 10000000⟩ 0
        (.ok [0x50, 0x05, 0x4b, 0x46, 0x7f, 0xff, 0x0c, 0x10])
        (.ok ())).2.1.tConv = 93000000
      ∧ (93000000 : Nat) ≠ 750000000 := by
  constructor
  · rfl
  · decide

/-- C4 (amended): for families `0x22`/`0x28`, after construction and after
every successful `SetResolution` call the stored conversion time equals
`time.Millisecond * (750 / (8 >> resolution))` with *integer* division
computed in whole milliseconds, so the 9-bit code 0 yields 93 ms (not
93.75 ms and not 750 ms) and the 12-bit code 3 yields 750 ms: a *higher*
resolution code yields the longer wait. -/
theorem C4_conversion_time (fam : Nat) (hfam : fam = 0x22 ∨ fam = 0x28)
    (s : TemperatureSensor) (hs : s.familyCode = fam)
    (sp : List Nat) (r : Nat) :
    (∀ s2, NewTemperatureSensorConfig fam (.ok sp) = .ok s2 →
        s2.resolution = (sp.getD 4 0 >>> 5) &&& 0b11 ∧
        s2.tConv = 1000000 * (750 / (8 >>> s2.resolution))) ∧
    ((SetResolution s r (.ok sp) (.ok ())).2.1.tConv
        = 1000000 * (750 / (8 >>> (r &&& 0b11)))) ∧
    1000000 * (750 / (8 >>> BSResolution9bits)) = 93000000 ∧
    1000000 * (750 / (8 >>> 1)) = 187000000 ∧
    1000000 * (750 / (8 >>> 2)) = 375000000 ∧
    1000000 * (750 / (8 >>> 3)) = 750000000 := by
  refine ⟨?_, ?_, by decide, by decide, by decide, by decide⟩
  · intro s2 h
    rcases hfam with rfl | rfl <;>
    · simp only [NewTemperatureSensorConfig] at h
      simp at h
      rw [← h]
      exact ⟨by simp [List.getD_eq_getElem?_getD], by simp [List.getD_eq_getElem?_getD]⟩
  · rcases hfam with rfl | rfl <;>
    · simp [SetResolution, hs]

/-- Witness for C4: concrete family-`0x28` construction and resolution
change. -/
theorem C4_conversion_time_witness :
    (∀ s2, NewTemperatureSensorConfig 0x28
        (.ok [0x50, 0x05, 0x4b, 0x46, 0x7f, 0xff, 0x0c, 0x10]) = .ok s2 →
        s2.resolution = ([0x50, 0x05, 0x4b, 0x46, 0x7f, 0xff, 0x0c, 0x10].getD 4 0 >>> 5) &&& 0b11 ∧
        s2.tConv = 1000000 * (750 / (8 >>> s2.resolution))) ∧
    ((SetResolution ⟨0x28, 0x0, "", "9 bits", 93000000, 10000000⟩ 3
        (.ok [0x50, 0x05, 0x4b, 0x46, 0x7f, 0xff, 0x0c, 0x10]) (.ok ())).2.1.tConv
        = 1000000 * (750 / (8 >>> (3 &&& 0b11)))) ∧
    1000000 * (750 / (8 >>> BSResolution9bits)) = 93000000 ∧
    1000000 * (750 / (8 >>> 1)) = 187000000 ∧
    1000000 * (750 / (8 >>> 2)) = 375000000 ∧
    1000000 * (750 / (8 >>> 3)) = 750000000 :=
  C4_conversion_time 0x28 (Or.inr rfl) ⟨0x28, 0x0, "", "9 bits", 93000000, 10000000⟩
    rfl [0x50, 0x05, 0x4b, 0x46, 0x7f, 0xff, 0x0c, 0x10] 3

/-- C5: for family `0x28`, `calcTemperature` decodes scratchpad bytes 0-1 as
a signed little-endian 16-bit raw count and returns `raw * 10000 / 16`
(truncating division), hitting the five documented decode vectors
(scratchpad context bytes as in the repository test). -/
theorem C5_calcTemperature_family28 (resolution b0 b1 : Nat) (rest : List Nat) :
    calcTemperature 0x28 resolution (b0 :: b1 :: rest)
        = Int.tdiv (int16OfLE b0 b1 * 10000) 16 ∧
    calcTemperature 0x28 resolution [0xd0, 0x07, 0, 0, 0, 0xff, 0, 0x10] = 1250000 ∧
    calcTemperature 0x28 resolution [0x50, 0x05, 0, 0, 0, 0xff, 0, 0x10] = 850000 ∧
    calcTemperature 0x28 resolution [0x91, 0x01, 0, 0, 0, 0xff, 0, 0x10] = 250625 ∧
    calcTemperature 0x28 resolution [0xf8, 0xff, 0, 0, 0, 0xff, 0, 0x10] = -5000 ∧
    calcTemperature 0x28 resolution [0x90, 0xfc, 0, 0, 0, 0xff, 0, 0x10] = -550000 :=
  ⟨rfl, rfl, rfl, rfl, rfl, rfl⟩

/-- C6: `readScratchpad` takes the 9 bytes read from the device; on a CRC
mismatch of the first 8 bytes against the 9th it fails with the integrity
error and returns no data — and `GetTemperature`, built on it, propagates the
error and produces no temperature; on a CRC match it returns exactly the
first 8 data bytes. -/
theorem C6_scratchpad_integrity (data : List Nat) (h9 : data.length = 9)
    (familyCode resolution : Nat) :
    (crc8 (data.take 8) ≠ data.getD 8 0 →
        readScratchpad data = .error "scratchpad crc error" ∧
        GetTemperature familyCode resolution data = .error "scratchpad crc error") ∧
    (crc8 (data.take 8) = data.getD 8 0 →
        readScratchpad data = .ok (data.take 8) ∧ (data.take 8).length = 8) := by
  constructor
  · intro hbad
    have h1 : readScratchpad data = .error "scratchpad crc error" := by
      simp only [readScratchpad]
      rw [if_pos hbad]
    exact ⟨h1, by simp [GetTemperature, h1]⟩
  · intro hgood
    have h1 : readScratchpad data = .ok (data.take 8) := by
      simp only [readScratchpad]
      rw [if_neg (fun hc => hc hgood)]
    refine ⟨h1, ?_⟩
    rw [List.length_take]
    omega

/-- Witness for C6: a concrete scratchpad whose CRC byte is wrong is rejected
and yields no temperature. -/
theorem C6_scratchpad_integrity_witness :
    readScratchpad [1, 0, 0, 0, 0, 0, 0, 0, 0] = .error "scratchpad crc error" ∧
    GetTemperature 0x28 0 [1, 0, 0, 0, 0, 0, 0, 0, 0]
      = .error "scratchpad crc error" :=
  (C6_scratchpad_integrity [1, 0, 0, 0, 0, 0, 0, 0, 0] (by decide) 0x28 0).1
    (by decide)

/-- C7: `reset` switches to 9600 baud, clears the buffers, writes `0xF0`,
reads one byte and restores 115200 baud regardless of the outcome; the echo
is then checked in cascade: nonzero low nibble → protocol error, all-ones
upper nibble → "no device present", otherwise success. -/
theorem C7_reset_behaviour (echo : Nat) (_hecho : echo < 256) :
    (reset echo).1 = [PortOp.setBaud 9600, PortOp.clearBuffers,
      PortOp.write 0xf0, PortOp.readByte, PortOp.setBaud 115200] ∧
    (echo &&& 0xf ≠ 0 → (reset echo).2 = .error "reset pulse error") ∧
    (echo &&& 0xf = 0 → echo >>> 4 = 0xf →
      (reset echo).2 = .error "no 1-wire device present") ∧
    (echo &&& 0xf = 0 → echo >>> 4 ≠ 0xf → (reset echo).2 = .ok ()) := by
  refine ⟨rfl, ?_, ?_, ?_⟩
  · intro hlo
    simp [reset, resetPulseCheck, hlo]
  · intro hlo hhi
    simp [reset, resetPulseCheck, hlo, hhi]
  · intro hlo hhi
    simp [reset, resetPulseCheck, hlo, hhi]

/-- Witness for C7: a clean presence echo (`0x20`) succeeds; the all-ones
echo (`0xF0` after the pulse) reports no device. -/
theorem C7_reset_behaviour_witness :
    (reset 0x20).2 = .ok ()
      ∧ (reset 0xf0).2 = .error "no 1-wire device present" :=
  ⟨(C7_reset_behaviour 0x20 (by decide)).2.2.2 (by decide) (by decide),
   (C7_reset_behaviour 0xf0 (by decide)).2.2.1 (by decide) (by decide)⟩

/-- C8: in externally-powered mode `wait` polls read-bits until a 1 bit is
observed or the time budget runs out, whichever comes first; exhausting the
budget is not an error — whenever every polled bit read succeeds, `wait`
returns success, and the only possible error is a transport failure coming
out of some bit read. -/
theorem C8_wait_timeout_not_error (bits : Nat → Except String Bool)
    (fuel i : Nat) :
    ((∀ j, ∃ b, bits j = .ok b) → wait bits fuel i = .ok ()) ∧
    (∀ e, wait bits fuel i = .error e → ∃ j, bits j = .error e) := by
  induction fuel generalizing i with
  | zero =>
    constructor
    · intro hok
      obtain ⟨b, hb⟩ := hok i
      cases b <;> simp [wait, hb]
    · intro e he
      rw [wait] at he
      cases hb : bits i with
      | error e2 =>
        rw [hb] at he
        cases he
        exact ⟨i, hb⟩
      | ok b =>
        rw [hb] at he
        cases b <;> simp at he
  | succ fuel ih =>
    constructor
    · intro hok
      obtain ⟨b, hb⟩ := hok i
      cases b with
      | true => simp [wait, hb]
      | false =>
        rw [wait, hb]
        simpa using (ih (i + 1)).1 hok
    · intro e he
      rw [wait] at he
      cases hb : bits i with
      | error e2 =>
        rw [hb] at he
        cases he
        exact ⟨i, hb⟩
      | ok b =>
        rw [hb] at he
        cases b with
        | true => simp at he
        | false =>
          simp at he
          exact (ih (i + 1)).2 e he

/-- Witness for C8: a device that never releases the line — every poll reads
0 — still makes `wait` return success once the time budget is exhausted. -/
theorem C8_wait_timeout_not_error_witness :
    wait (fun _ => .ok false) 3 0 = .ok () :=
  (C8_wait_timeout_not_error (fun _ => .ok false) 3 0).1 (fun _ => ⟨false, rfl⟩)

/-- The two byte loops agree on the bytes read but differ by exactly one in
the returned count: the tarm adapter increments `i` once more after the
loop. -/
lemma readBytesLoops_spec (reads : Nat → Except String Nat) :
    ∀ rem i buffer, (∀ j, i ≤ j → j < i + rem → ∃ b, reads j = .ok b) →
    ∃ vals : List Nat, vals.length = rem ∧
      ReadBytesLoop reads rem i buffer = ((i + rem + 1, buffer ++ vals), none) ∧
      readBytesLoop reads rem i buffer = ((i + rem, buffer ++ vals), none) := by
  intro rem
  induction rem with
  | zero =>
    intro i buffer h
    exact ⟨[], rfl, by simp [ReadBytesLoop], by simp [readBytesLoop]⟩
  | succ rem ih =>
    intro i buffer h
    obtain ⟨b, hb⟩ := h i (Nat.le_refl i) (by omega)
    obtain ⟨vals, hlen, h1, h2⟩ :=
      ih (i + 1) (buffer ++ [b]) (fun j hj1 hj2 => h j (by omega) (by omega))
    refine ⟨b :: vals, by simp [hlen], ?_, ?_⟩
    · rw [ReadBytesLoop, hb]
      show ReadBytesLoop reads rem (i + 1) (buffer ++ [b])
          = ((i + (rem + 1) + 1, buffer ++ b :: vals), none)
      rw [h1]
      have harith : i + 1 + rem + 1 = i + (rem + 1) + 1 := by omega
      rw [harith, List.append_assoc]
      rfl
    · rw [readBytesLoop, hb]
      show readBytesLoop reads rem (i + 1) (buffer ++ [b])
          = ((i + (rem + 1), buffer ++ b :: vals), none)
      rw [h2]
      have harith : i + 1 + rem = i + (rem + 1) := by omega
      rw [harith, List.append_assoc]
      rfl

/-- C9: when every per-byte read succeeds, both adapters fill all
`len(buffer)` bytes with the same values, but the tarm/serial `ReadBytes`
(`bus.go`) returns the count `len(buffer) + 1` — one more than the number of
bytes read — while the go.bug.st `readBytes` (`bus-driver.go`) returns
exactly `len(buffer)`. -/
theorem C9_readBytes_count (reads : Nat → Except String Nat) (size : Nat)
    (h : ∀ j, j < size → ∃ b, reads j = .ok b) :
    ∃ buffer : List Nat, buffer.length = size ∧
      ReadBytes reads size = ((size + 1, buffer), none) ∧
      readBytes reads size = ((size, buffer), none) := by
  obtain ⟨vals, hlen, h1, h2⟩ :=
    readBytesLoops_spec reads size 0 [] (fun j _ hj2 => h j (by omega))
  exact ⟨vals, hlen, by simpa using h1, by simpa using h2⟩

/-- Witness for C9: three successful reads give count 4 from the tarm adapter
and count 3 from the go.bug.st adapter. -/
theorem C9_readBytes_count_witness :
    ∃ buffer : List Nat, buffer.length = 3 ∧
      ReadBytes (fun j => .ok j) 3 = ((3 + 1, buffer), none) ∧
      readBytes (fun j => .ok j) 3 = ((3, buffer), none) :=
  C9_readBytes_count (fun j => .ok j) 3 (fun j _ => ⟨j, rfl⟩)

/-- C10: for a sensor whose family code is none of `0x10`, `0x22`, `0x28`,
`SetResolution` falls through the switch: it returns nil for any argument,
issues no bus transaction, and leaves the whole sensor state — resolution,
precision string, conversion time — unchanged. -/
theorem C10_SetResolution_unknown_family (s : TemperatureSensor)
    (h10 : s.familyCode ≠ 0x10) (h22 : s.familyCode ≠ 0x22)
    (h28 : s.familyCode ≠ 0x28) (resolution : Nat)
    (scr : Except String (List Nat)) (writeRes : Except String Unit) :
    SetResolution s resolution scr writeRes = (.ok (), s, []) := by
  simp [SetResolution, h10, h22, h28]

/-- Witness for C10: a family-`0x05` sensor is untouched by `SetResolution`. -/
theorem C10_SetResolution_unknown_family_witness :
    SetResolution ⟨0x05, 0, "", "unknown", 750000000, 10000000⟩ 3
        (.ok [0, 0, 0, 0, 0, 0, 0, 0]) (.ok ())
      = (.ok (), ⟨0x05, 0, "", "unknown", 750000000, 10000000⟩, []) :=
  C10_SetResolution_unknown_family ⟨0x05, 0, "", "unknown", 750000000, 10000000⟩
    (by decide) (by decide) (by decide) 3 (.ok [0, 0, 0, 0, 0, 0, 0, 0]) (.ok ())

end Digitemp
